import Mathlib

/-!
Verification of the secret-vault core of the Steem-Wallet-Desktop repository
(files src-tauri/src/crypto.rs and src-tauri/src/commands.rs).

Bytes are modelled as natural numbers below 256, byte strings as lists of
naturals, and Rust strings as Lean strings.  Randomness is made explicit:
the randomly generated salt string and nonce bytes are parameters of the
embedded functions.  The external crates are modelled as follows:

* hex: a faithful executable hex codec (lowercase encoding, case-insensitive
  decoding, failure on odd length or non-hex characters);
* UTF-8 (String::as_bytes / String::from_utf8): a faithful executable UTF-8
  encoder and validating decoder, with a proved round trip;
* argon2: an idealized deterministic stand-in producing 32 bytes from the
  password and the B64 salt string, standing for Argon2id with the fixed
  parameters m=19456 KiB, t=2, p=1, output length 32 bytes; hash_password
  additionally validates the salt before hashing, rejecting salts whose
  B64 decoding is below the minimum of 8 bytes;
* password_hash SaltString::from_b64: validation of the B64 character set
  and the 4..=64 length range;
* aes_gcm Aes256Gcm: an idealized AEAD in which the ciphertext is the
  plaintext followed by an authenticator binding the key and the nonce, so
  that decryption succeeds exactly when both match;
* serde_json: a JSON parser for the fragment of JSON the envelope wire
  format uses (objects, strings with common escapes, integers, booleans,
  null, arrays), plus the derived field-wise decoding of the EncryptedKey
  struct (all four fields required, string-typed, no duplicates).

Error strings follow the shape of the Rust format! messages with the
dynamic tail coarsened to a fixed description.
-/

namespace SteemVault

/-! ## Hex codec (model of the hex crate) -/

/-- Lowercase hex digit for a value below 16, as produced by hex::encode. -/
def hexDigitChar (n : Nat) : Char :=
  if n < 10 then Char.ofNat (48 + n) else Char.ofNat (87 + n)

/-- Numeric value of a hex digit, accepting both cases as hex::decode does. -/
def hexCharVal (c : Char) : Option Nat :=
  if 48 ≤ c.toNat ∧ c.toNat ≤ 57 then some (c.toNat - 48)
  else if 97 ≤ c.toNat ∧ c.toNat ≤ 102 then some (c.toNat - 87)
  else if 65 ≤ c.toNat ∧ c.toNat ≤ 70 then some (c.toNat - 55)
  else none

/-- Two hex characters of one byte, high digit first. -/
def byteToHex (b : Nat) : List Char :=
  [hexDigitChar (b / 16), hexDigitChar (b % 16)]

/-- Hex characters of a byte list (model of hex::encode, result as chars). -/
def bytesToHexChars : List Nat → List Char
  | [] => []
  | b :: bs => byteToHex b ++ bytesToHexChars bs

/-- Model of hex::encode. -/
def hexEncode (bs : List Nat) : String :=
  String.mk (bytesToHexChars bs)

/-- Model of hex::decode on a character list: pairs of hex digits; fails on
an odd number of digits or on a non-hex character. -/
def hexDecodeChars : List Char → Except String (List Nat)
  | [] => .ok []
  | [_] => .error "Odd number of digits"
  | c1 :: c2 :: cs =>
    match hexCharVal c1, hexCharVal c2 with
    | some hi, some lo => (hexDecodeChars cs).map (fun bs => (hi * 16 + lo) :: bs)
    | _, _ => .error "Invalid character"

/-- Model of hex::decode. -/
def hexDecode (s : String) : Except String (List Nat) :=
  hexDecodeChars s.data

/-! ## UTF-8 codec (model of String::as_bytes and String::from_utf8) -/

/-- UTF-8 bytes of one unicode scalar value. -/
def utf8EncodeChar (c : Char) : List Nat :=
  let n := c.toNat
  if n < 0x80 then [n]
  else if n < 0x800 then [0xC0 + n / 64, 0x80 + n % 64]
  else if n < 0x10000 then [0xE0 + n / 4096, 0x80 + (n / 64) % 64, 0x80 + n % 64]
  else [0xF0 + n / 262144, 0x80 + (n / 4096) % 64, 0x80 + (n / 64) % 64, 0x80 + n % 64]

/-- UTF-8 bytes of a character list (model of String::as_bytes). -/
def utf8EncodeList : List Char → List Nat
  | [] => []
  | c :: cs => utf8EncodeChar c ++ utf8EncodeList cs

/-- UTF-8 bytes of a string (model of String::as_bytes). -/
def utf8Encode (s : String) : List Nat :=
  utf8EncodeList s.data

/-- Payload value of a UTF-8 continuation byte, if it is one. -/
def contVal (b : Nat) : Option Nat :=
  if 0x80 ≤ b ∧ b < 0xC0 then some (b - 0x80) else none

/-- One step of UTF-8 decoding: decode the character starting at lead byte
b0, then continue with the given continuation on the remaining bytes.
Rejects stray continuation bytes, overlong encodings, surrogate code points
and values above 0x10FFFF, exactly as String::from_utf8 does. -/
def utf8DecodeStep (next : List Nat → Option (List Char)) (b0 : Nat) (bs : List Nat) :
    Option (List Char) :=
  if b0 < 0x80 then
    (next bs).map (fun cs => Char.ofNat b0 :: cs)
  else if b0 < 0xC2 then none
  else if b0 < 0xE0 then
    (bs.head?.bind contVal).bind (fun v1 =>
      (next (bs.drop 1)).map
        (fun cs => Char.ofNat ((b0 - 0xC0) * 64 + v1) :: cs))
  else if b0 < 0xF0 then
    (bs.head?.bind contVal).bind (fun v1 =>
      ((bs.drop 1).head?.bind contVal).bind (fun v2 =>
        let n := (b0 - 0xE0) * 4096 + v1 * 64 + v2
        if 0x800 ≤ n ∧ (n < 0xD800 ∨ 0xDFFF < n) then
          (next (bs.drop 2)).map (fun cs => Char.ofNat n :: cs)
        else none))
  else if b0 < 0xF5 then
    (bs.head?.bind contVal).bind (fun v1 =>
      ((bs.drop 1).head?.bind contVal).bind (fun v2 =>
        ((bs.drop 2).head?.bind contVal).bind (fun v3 =>
          let n := (b0 - 0xF0) * 262144 + v1 * 4096 + v2 * 64 + v3
          if 0x10000 ≤ n ∧ n < 0x110000 then
            (next (bs.drop 3)).map (fun cs => Char.ofNat n :: cs)
          else none)))
  else none

/-- Fuelled UTF-8 decoder; one unit of fuel is spent per decoded character. -/
def utf8DecodeAux : Nat → List Nat → Option (List Char)
  | _, [] => some []
  | 0, _ :: _ => none
  | fuel + 1, b0 :: bs => utf8DecodeStep (utf8DecodeAux fuel) b0 bs

/-- Validating UTF-8 decoder on byte lists. -/
def utf8DecodeList (bs : List Nat) : Option (List Char) :=
  utf8DecodeAux bs.length bs

/-- Model of String::from_utf8 (success as some, invalid UTF-8 as none). -/
def stringFromUtf8 (bs : List Nat) : Option String :=
  (utf8DecodeList bs).map String.mk

/-! ## Salt strings (model of password_hash SaltString) -/

/-- Membership in the B64 alphabet of the PHC string format. -/
def isB64Char (c : Char) : Bool :=
  (65 ≤ c.toNat && c.toNat ≤ 90) || (97 ≤ c.toNat && c.toNat ≤ 122) ||
    (48 ≤ c.toNat && c.toNat ≤ 57) || c == '+' || c == '/'

/-- Model of SaltString::from_b64: the string must be 4 to 64 characters of
the B64 alphabet; on success the salt is the string itself. -/
def saltFromB64 (s : String) : Except String String :=
  if s.length < 4 then .error "value to short"
  else if 64 < s.length then .error "value to long"
  else if s.data.all isB64Char then .ok s
  else .error "invalid encoding"

/-! ## Key derivation (crypto.rs, with the argon2 crate modelled) -/

/-- Byte length of the decoding of an unpadded B64 string (6 bits per
character). -/
def b64DecodedLen (s : String) : Nat :=
  s.length * 3 / 4

/-- Idealized deterministic stand-in for the Argon2id hash output with the
fixed parameters of the source (m=19456 KiB, t=2, p=1, output length 32):
32 bytes mixed from the password and the B64 salt string.  Determinism and
output length are the contract properties the source relies on; the mixing
itself is a model of the pseudorandom function. -/
def argon2idHash (password salt : String) : List Nat :=
  let seed := utf8Encode password ++ [36] ++ utf8Encode salt
  (List.range 32).map (fun i =>
    (seed.foldl (fun a b => (a * 1000003 + b + 1) % 2147483647) (i + 1)) % 256)

/-- Key assembly shared by both derivation functions (crypto.rs lines 46-53
and 83-90): a zero-initialized 32-byte array whose first min(32, hash
length) bytes are copied from the hash output. -/
def buildKey (hash_bytes : List Nat) : List Nat :=
  hash_bytes.take (min 32 hash_bytes.length) ++
    List.replicate (32 - min 32 hash_bytes.length) 0

/-- Embedding of derive_key_from_password_with_salt (crypto.rs lines
21-54): parse the salt string with SaltString::from_b64, run Argon2id with
the fixed parameters, copy the hash output into the 32-byte key.  Before
hashing, Argon2::hash_password validates its inputs: a salt whose B64
decoding is shorter than the minimum of 8 bytes is rejected even though
SaltString::from_b64 accepted it, and the hashing fails. -/
def derive_key_from_password_with_salt (password salt_str : String) :
    Except String (List Nat) :=
  match saltFromB64 salt_str with
  | .error e => .error ("Invalid salt: " ++ e)
  | .ok salt =>
    if b64DecodedLen salt < 8 then
      .error "Password hashing failed: salt invalid: too short"
    else .ok (buildKey (argon2idHash password salt))

/-- Embedding of derive_key_from_password (crypto.rs lines 58-91).  The
freshly generated SaltString is made explicit as the parameter salt_str
(its to_string rendering).  The params construction always succeeds with
the fixed constants; the hashing validates the salt length exactly as in
derive_key_from_password_with_salt (a generated salt is 22 B64 characters
= 16 bytes and always passes). -/
def derive_key_from_password (password : String) (salt_str : String) :
    Except String (List Nat × String) :=
  if b64DecodedLen salt_str < 8 then
    .error "Password hashing failed: salt invalid: too short"
  else .ok (buildKey (argon2idHash password salt_str), salt_str)

/-! ## Authenticated cipher (model of the aes_gcm crate) -/

/-- Idealized model of Aes256Gcm::encrypt with empty AAD: the ciphertext
carries the plaintext followed by an authenticator binding the key and the
nonce. -/
def aes256gcmEncrypt (key nonce msg : List Nat) : List Nat :=
  msg ++ (key ++ nonce)

/-- Idealized model of Aes256Gcm::decrypt with empty AAD: succeeds exactly
when the authenticator at the end of the ciphertext matches the key and
nonce supplied, returning the plaintext in front of it. -/
def aes256gcmDecrypt (key nonce ct : List Nat) : Option (List Nat) :=
  if 44 ≤ ct.length ∧ ct.drop (ct.length - 44) = key ++ nonce then
    some (ct.take (ct.length - 44))
  else none

/-! ## The encrypted-key record and seal/open (crypto.rs) -/

/-- Embedding of the EncryptedKey struct of crypto.rs. -/
structure EncryptedKey where
  ciphertext : String
  nonce : String
  tag : String
  salt : String

deriving DecidableEq, Repr

/-- Embedding of encrypt_private_key (crypto.rs lines 94-121).  The random
nonce bytes and the random salt string are explicit parameters. -/
def encrypt_private_key (private_key password : String)
    (salt_str : String) (nonce_bytes : List Nat) : Except String EncryptedKey :=
  match derive_key_from_password password salt_str with
  | .error e => .error e
  | .ok (key, salt_str2) =>
    let ciphertext := aes256gcmEncrypt key nonce_bytes (utf8Encode private_key)
    .ok { ciphertext := hexEncode ciphertext
          nonce := hexEncode nonce_bytes
          tag := ""
          salt := salt_str2 }

/-- Embedding of decrypt_private_key (crypto.rs lines 124-156), with the
same sequencing as the source: key derivation from the stored salt first,
then hex decoding of ciphertext and nonce, then the nonce length check,
then authenticated decryption, then the UTF-8 check. -/
def decrypt_private_key (encrypted_key : EncryptedKey) (password : String) :
    Except String String :=
  match derive_key_from_password_with_salt password encrypted_key.salt with
  | .error e => .error e
  | .ok key =>
    match hexDecode encrypted_key.ciphertext with
    | .error e => .error ("Failed to decode ciphertext: " ++ e)
    | .ok ciphertext =>
      match hexDecode encrypted_key.nonce with
      | .error e => .error ("Failed to decode nonce: " ++ e)
      | .ok nonce_bytes =>
        if nonce_bytes.length ≠ 12 then .error "Invalid nonce length"
        else
          match aes256gcmDecrypt key nonce_bytes ciphertext with
          | none => .error "Decryption failed: aead::Error"
          | some plaintext =>
            match stringFromUtf8 plaintext with
            | none => .error "Invalid UTF-8"
            | some s => .ok s

/-! ## Instrumented variants recording which expensive units ran -/

/-- Units of work the vault can invoke: the Argon2 hashing of the key
derivation unit and the two directions of the cipher unit. -/
inductive CryptoEvent where
  | deriveKey
  | cipherEncrypt
  | cipherDecrypt

deriving DecidableEq, Repr

/-- Instrumented derive_key_from_password_with_salt: same result, and the
deriveKey event exactly when the expensive Argon2 hashing runs (it does
not when the salt fails to parse, nor when hash_password rejects the salt
at input validation). -/
def derive_key_from_password_with_salt_traced (password salt_str : String) :
    Except String (List Nat) × List CryptoEvent :=
  match saltFromB64 salt_str with
  | .error e => (.error ("Invalid salt: " ++ e), [])
  | .ok salt =>
    if b64DecodedLen salt < 8 then
      (.error "Password hashing failed: salt invalid: too short", [])
    else (.ok (buildKey (argon2idHash password salt)), [.deriveKey])

/-- Instrumented decrypt_private_key: same result and sequencing as the
plain embedding, together with the list of units that ran. -/
def decrypt_private_key_traced (encrypted_key : EncryptedKey) (password : String) :
    Except String String × List CryptoEvent :=
  match derive_key_from_password_with_salt_traced password encrypted_key.salt with
  | (.error e, evs) => (.error e, evs)
  | (.ok key, evs) =>
    match hexDecode encrypted_key.ciphertext with
    | .error e => (.error ("Failed to decode ciphertext: " ++ e), evs)
    | .ok ciphertext =>
      match hexDecode encrypted_key.nonce with
      | .error e => (.error ("Failed to decode nonce: " ++ e), evs)
      | .ok nonce_bytes =>
        if nonce_bytes.length ≠ 12 then (.error "Invalid nonce length", evs)
        else
          match aes256gcmDecrypt key nonce_bytes ciphertext with
          | none => (.error "Decryption failed: aead::Error", evs ++ [.cipherDecrypt])
          | some plaintext =>
            match stringFromUtf8 plaintext with
            | none => (.error "Invalid UTF-8", evs ++ [.cipherDecrypt])
            | some s => (.ok s, evs ++ [.cipherDecrypt])

/-- Instrumented encrypt_private_key: same result, and the deriveKey and
cipherEncrypt events for the derivation and encryption it performs (a
derivation that aborts at input validation performs no hashing, so it
contributes no event). -/
def encrypt_private_key_traced (private_key password : String)
    (salt_str : String) (nonce_bytes : List Nat) :
    Except String EncryptedKey × List CryptoEvent :=
  match derive_key_from_password password salt_str with
  | .error e => (.error e, [])
  | .ok (key, salt_str2) =>
    ((.ok { ciphertext := hexEncode (aes256gcmEncrypt key nonce_bytes (utf8Encode private_key))
            nonce := hexEncode nonce_bytes
            tag := ""
            salt := salt_str2 }),
      [.deriveKey, .cipherEncrypt])

/-! ## JSON (model of serde_json for the envelope wire format) -/

/-- JSON values, with numbers restricted to integers: the envelope wire
format only ever carries strings, so this fragment is all the commands
layer exercises. -/
inductive Json where
  | null
  | bool (b : Bool)
  | num (n : Int)
  | str (s : String)
  | arr (xs : List Json)
  | obj (fields : List (String × Json))

/-- Drop leading JSON whitespace. -/
def skipWs : List Char → List Char
  | c :: cs =>
    if c = ' ' ∨ c = Char.ofNat 9 ∨ c = Char.ofNat 10 ∨ c = Char.ofNat 13 then skipWs cs
    else c :: cs
  | [] => []

/-- Parse four hex digits of a \u escape. -/
def parseHex4 : List Char → Option (Nat × List Char)
  | a :: b :: c :: d :: rest =>
    (hexCharVal a).bind fun va =>
      (hexCharVal b).bind fun vb =>
        (hexCharVal c).bind fun vc =>
          (hexCharVal d).map fun vd =>
            (va * 4096 + vb * 256 + vc * 16 + vd, rest)
  | _ => none

/-- Body of a JSON string after the opening quote, with the common escape
sequences (lone \u escapes are mapped through Char.ofNat; surrogate
pairing is outside this fragment). -/
def parseStrAux : Nat → List Char → List Char → Option (String × List Char)
  | 0, _, _ => none
  | _ + 1, _, [] => none
  | fuel + 1, acc, c :: rest =>
    if c = '"' then some (String.mk acc.reverse, rest)
    else if c = '\\' then
      match rest with
      | [] => none
      | e :: rest2 =>
        if e = '"' ∨ e = '\\' ∨ e = '/' then parseStrAux fuel (e :: acc) rest2
        else if e = 'b' then parseStrAux fuel (Char.ofNat 8 :: acc) rest2
        else if e = 'f' then parseStrAux fuel (Char.ofNat 12 :: acc) rest2
        else if e = 'n' then parseStrAux fuel (Char.ofNat 10 :: acc) rest2
        else if e = 'r' then parseStrAux fuel (Char.ofNat 13 :: acc) rest2
        else if e = 't' then parseStrAux fuel (Char.ofNat 9 :: acc) rest2
        else if e = 'u' then
          match parseHex4 rest2 with
          | some (n, rest3) => parseStrAux fuel (Char.ofNat n :: acc) rest3
          | none => none
        else none
    else parseStrAux fuel (c :: acc) rest

/-- Digits of an unsigned decimal integer, most significant first. -/
def parseDigits : Nat → Nat → List Char → Option (Nat × List Char)
  | 0, _, _ => none
  | _ + 1, acc, [] => some (acc, [])
  | fuel + 1, acc, c :: rest =>
    if c.isDigit then parseDigits fuel (acc * 10 + (c.toNat - 48)) rest
    else some (acc, c :: rest)

/-- Parse a JSON integer (fraction and exponent forms are outside this
fragment). -/
def parseNum (cs : List Char) : Option (Int × List Char) :=
  match cs with
  | '-' :: c :: rest =>
    if c.isDigit then
      (parseDigits (rest.length + 1) (c.toNat - 48) rest).map
        (fun p => (-(p.1 : Int), p.2))
    else none
  | c :: rest =>
    if c.isDigit then
      (parseDigits (rest.length + 1) (c.toNat - 48) rest).map
        (fun p => ((p.1 : Int), p.2))
    else none
  | [] => none

mutual

/-- Parse one JSON value. -/
def parseValue : Nat → List Char → Option (Json × List Char)
  | 0, _ => none
  | fuel + 1, cs =>
    match skipWs cs with
    | [] => none
    | c :: rest =>
      if c = 'n' then
        match rest with
        | 'u' :: 'l' :: 'l' :: rest2 => some (.null, rest2)
        | _ => none
      else if c = 't' then
        match rest with
        | 'r' :: 'u' :: 'e' :: rest2 => some (.bool true, rest2)
        | _ => none
      else if c = 'f' then
        match rest with
        | 'a' :: 'l' :: 's' :: 'e' :: rest2 => some (.bool false, rest2)
        | _ => none
      else if c = '"' then
        (parseStrAux (rest.length + 1) [] rest).map (fun p => (.str p.1, p.2))
      else if c = '[' then
        match skipWs rest with
        | ']' :: rest2 => some (.arr [], rest2)
        | _ => (parseArrItems fuel rest).map (fun p => (.arr p.1, p.2))
      else if c = Char.ofNat 123 then
        match skipWs rest with
        | c2 :: rest2 =>
          if c2 = Char.ofNat 125 then some (.obj [], rest2)
          else (parseObjItems fuel (c2 :: rest2)).map (fun p => (.obj p.1, p.2))
        | [] => none
      else
        (parseNum (c :: rest)).map (fun p => (.num p.1, p.2))

/-- Parse the comma-separated items of a non-empty JSON array, including
the closing bracket. -/
def parseArrItems : Nat → List Char → Option (List Json × List Char)
  | 0, _ => none
  | fuel + 1, cs =>
    match parseValue fuel cs with
    | none => none
    | some (v, rest) =>
      match skipWs rest with
      | ',' :: rest2 =>
        (parseArrItems fuel rest2).map (fun p => (v :: p.1, p.2))
      | ']' :: rest2 => some ([v], rest2)
      | _ => none

/-- Parse the comma-separated members of a non-empty JSON object, including
the closing brace. -/
def parseObjItems : Nat → List Char → Option (List (String × Json) × List Char)
  | 0, _ => none
  | fuel + 1, cs =>
    match skipWs cs with
    | '"' :: rest =>
      match parseStrAux (rest.length + 1) [] rest with
      | none => none
      | some (k, rest2) =>
        match skipWs rest2 with
        | ':' :: rest3 =>
          match parseValue fuel rest3 with
          | none => none
          | some (v, rest4) =>
            match skipWs rest4 with
            | ',' :: rest5 =>
              (parseObjItems fuel rest5).map (fun p => ((k, v) :: p.1, p.2))
            | c :: rest5 =>
              if c = Char.ofNat 125 then some ([(k, v)], rest5) else none
            | [] => none
        | _ => none
    | _ => none

end

/-- Model of serde_json::from_str into a JSON value: parse one value and
require only whitespace after it. -/
def parseJson (s : String) : Except String Json :=
  match parseValue (2 * s.length + 4) s.data with
  | some (j, rest) =>
    if skipWs rest = [] then .ok j else .error "trailing characters"
  | none => .error "expected value"

/-- First value bound to a key in a parsed JSON object. -/
def jsonLookup (fields : List (String × Json)) (k : String) : Option Json :=
  (fields.find? (fun p => p.1 == k)).map Prod.snd

/-- Field access of the derived Deserialize of EncryptedKey: the field must
be present and a string. -/
def getStrField (fields : List (String × Json)) (name : String) :
    Except String String :=
  match jsonLookup fields name with
  | some (.str s) => .ok s
  | some _ => .error ("invalid type for field " ++ name)
  | none => .error ("missing field " ++ name)

/-- Model of the derived Deserialize of EncryptedKey applied to a JSON
value: a JSON object, no duplicate keys, and the four string fields all
present (unknown extra fields are ignored, as serde does by default). -/
def encryptedKeyFromJson (j : Json) : Except String EncryptedKey :=
  match j with
  | .obj fields =>
    if (fields.map Prod.fst).Nodup then
      (getStrField fields "ciphertext").bind fun c =>
        (getStrField fields "nonce").bind fun n =>
          (getStrField fields "tag").bind fun t =>
            (getStrField fields "salt").map fun s =>
              { ciphertext := c, nonce := n, tag := t, salt := s }
    else .error "duplicate field"
  | _ => .error "invalid type: expected struct EncryptedKey"

/-- Model of serde_json::from_str::<EncryptedKey>. -/
def encryptedKeyFromStr (s : String) : Except String EncryptedKey :=
  match parseJson s with
  | .error e => .error e
  | .ok j => encryptedKeyFromJson j

/-- JSON string escaping, as serde_json::to_string performs it. -/
def jsonEscapeChar (c : Char) : List Char :=
  if c = '"' then ['\\', '"']
  else if c = '\\' then ['\\', '\\']
  else if c.toNat < 32 then
    ['\\', 'u', hexDigitChar (c.toNat / 4096), hexDigitChar (c.toNat / 256 % 16),
      hexDigitChar (c.toNat / 16 % 16), hexDigitChar (c.toNat % 16)]
  else [c]

/-- Escape a string for inclusion in a JSON document. -/
def jsonEscapeString (s : String) : String :=
  String.mk (s.data.flatMap jsonEscapeChar)

/-- Model of serde_json::to_string of an EncryptedKey: the four fields in
struct declaration order. -/
def encryptedKeyToJsonStr (ek : EncryptedKey) : String :=
  "\x7b\"ciphertext\":\"" ++ jsonEscapeString ek.ciphertext ++
    "\",\"nonce\":\"" ++ jsonEscapeString ek.nonce ++
    "\",\"tag\":\"" ++ jsonEscapeString ek.tag ++
    "\",\"salt\":\"" ++ jsonEscapeString ek.salt ++ "\"\x7d"

/-! ## The command layer (commands.rs) -/

/-- Embedding of the EncryptResponse struct of commands.rs. -/
structure EncryptResponse where
  success : Bool
  encrypted_data : Option String
  error : Option String

deriving DecidableEq, Repr

/-- Embedding of the DecryptResponse struct of commands.rs. -/
structure DecryptResponse where
  success : Bool
  decrypted_data : Option String
  error : Option String

deriving DecidableEq, Repr

/-- Embedding of encrypt_sensitive_data (commands.rs lines 23-57).  The
random salt string and nonce bytes consumed by encrypt_private_key are
explicit parameters; serialization of the EncryptedKey cannot fail, so the
Err propagation of the source is unreachable. -/
def encrypt_sensitive_data (data password : String)
    (salt_str : String) (nonce_bytes : List Nat) : Except String EncryptResponse :=
  if data = "" then
    .ok { success := false, encrypted_data := none, error := some "Data cannot be empty" }
  else if password = "" then
    .ok { success := false, encrypted_data := none, error := some "Password cannot be empty" }
  else
    match encrypt_private_key data password salt_str nonce_bytes with
    | .ok encrypted_key =>
      .ok { success := true
            encrypted_data := some (encryptedKeyToJsonStr encrypted_key)
            error := none }
    | .error e =>
      .ok { success := false, encrypted_data := none
            error := some ("Encryption failed: " ++ e) }

/-- Embedding of decrypt_sensitive_data (commands.rs lines 62-103). -/
def decrypt_sensitive_data (encrypted_data password : String) :
    Except String DecryptResponse :=
  if encrypted_data = "" then
    .ok { success := false, decrypted_data := none
          error := some "Encrypted data cannot be empty" }
  else if password = "" then
    .ok { success := false, decrypted_data := none
          error := some "Password cannot be empty" }
  else
    match encryptedKeyFromStr encrypted_data with
    | .error e =>
      .ok { success := false, decrypted_data := none
            error := some ("Invalid encrypted data format: " ++ e) }
    | .ok encrypted_key =>
      match decrypt_private_key encrypted_key password with
      | .ok decrypted =>
        .ok { success := true, decrypted_data := some decrypted, error := none }
      | .error e =>
        .ok { success := false, decrypted_data := none
              error := some ("Decryption failed: " ++ e) }

/-- Instrumented encrypt_sensitive_data: same result, plus the units that
ran. -/
def encrypt_sensitive_data_traced (data password : String)
    (salt_str : String) (nonce_bytes : List Nat) :
    Except String EncryptResponse × List CryptoEvent :=
  if data = "" then
    (.ok { success := false, encrypted_data := none, error := some "Data cannot be empty" }, [])
  else if password = "" then
    (.ok { success := false, encrypted_data := none
           error := some "Password cannot be empty" }, [])
  else
    match encrypt_private_key_traced data password salt_str nonce_bytes with
    | (.ok encrypted_key, evs) =>
      (.ok { success := true
             encrypted_data := some (encryptedKeyToJsonStr encrypted_key)
             error := none }, evs)
    | (.error e, evs) =>
      (.ok { success := false, encrypted_data := none
             error := some ("Encryption failed: " ++ e) }, evs)

/-! ## Supporting lemmas -/

deriving instance DecidableEq for Except

/-! ## Claims -/

set_option maxRecDepth 100000

/-! ## Lemmas and claim theorems -/

theorem hexCharVal_hexDigitChar : ∀ n, n < 16 → hexCharVal (hexDigitChar n) = some n := by
  decide

theorem bytesToHexChars_cons (b : Nat) (bs : List Nat) :
    bytesToHexChars (b :: bs) =
      hexDigitChar (b / 16) :: hexDigitChar (b % 16) :: bytesToHexChars bs := rfl

theorem hexDecodeChars_bytesToHexChars (bs : List Nat) (h : ∀ b ∈ bs, b < 256) :
    hexDecodeChars (bytesToHexChars bs) = .ok bs := by
  induction bs with
  | nil => rfl
  | cons b bs ih =>
    have hb : b < 256 := h b (List.mem_cons_self _ _)
    have hhi : b / 16 < 16 := by omega
    have hlo : b % 16 < 16 := by omega
    have hv : b / 16 * 16 + b % 16 = b := by omega
    have hrest : hexDecodeChars (bytesToHexChars bs) = .ok bs :=
      ih (fun x hx => h x (List.mem_cons_of_mem _ hx))
    rw [bytesToHexChars_cons, hexDecodeChars,
      hexCharVal_hexDigitChar _ hhi, hexCharVal_hexDigitChar _ hlo, hrest]
    simp only [Except.map, hv]

theorem hexDecode_hexEncode (bs : List Nat) (h : ∀ b ∈ bs, b < 256) :
    hexDecode (hexEncode bs) = .ok bs := by
  simpa [hexDecode, hexEncode] using hexDecodeChars_bytesToHexChars bs h

theorem bytesToHexChars_length (bs : List Nat) :
    (bytesToHexChars bs).length = 2 * bs.length := by
  induction bs with
  | nil => rfl
  | cons b bs ih => simp [bytesToHexChars, byteToHex, ih]; omega

theorem hexEncode_length (bs : List Nat) :
    (hexEncode bs).length = 2 * bs.length := by
  simp [hexEncode, String.length, bytesToHexChars_length]

theorem utf8EncodeChar_lt_256 (c : Char) : ∀ b ∈ utf8EncodeChar c, b < 256 := by
  have hv : Nat.isValidChar c.toNat := c.valid
  have hn : c.toNat < 0x110000 := by
    rcases hv with h | ⟨_, h⟩ <;> omega
  intro b hb
  simp only [utf8EncodeChar] at hb
  split at hb
  · simp only [List.mem_singleton] at hb
    omega
  · split at hb
    · simp only [List.mem_cons, List.mem_singleton, List.not_mem_nil, or_false] at hb
      rcases hb with rfl | rfl <;> omega
    · split at hb
      · simp only [List.mem_cons, List.mem_singleton, List.not_mem_nil, or_false] at hb
        rcases hb with rfl | rfl | rfl <;> omega
      · simp only [List.mem_cons, List.mem_singleton, List.not_mem_nil, or_false] at hb
        rcases hb with rfl | rfl | rfl | rfl <;> omega

theorem utf8EncodeChar_length_pos (c : Char) : 1 ≤ (utf8EncodeChar c).length := by
  simp only [utf8EncodeChar]
  split <;> try simp
  split <;> try simp
  split <;> simp

theorem utf8EncodeChar_length_le (c : Char) : (utf8EncodeChar c).length ≤ 4 := by
  simp only [utf8EncodeChar]
  split <;> try simp
  split <;> try simp
  split <;> simp

set_option maxHeartbeats 1000000 in
set_option maxRecDepth 8192 in
theorem utf8DecodeAux_encodeChar (c : Char) (fuel : Nat) (bs : List Nat) :
    utf8DecodeAux (fuel + 1) (utf8EncodeChar c ++ bs) =
      (utf8DecodeAux fuel bs).map (fun cs => c :: cs) := by
  have hv : Nat.isValidChar c.toNat := c.valid
  have hoc : Char.ofNat c.toNat = c := Char.ofNat_toNat c
  by_cases h1 : c.toNat < 0x80
  · have he : utf8EncodeChar c = [c.toNat] := by
      simp only [utf8EncodeChar, if_pos h1]
    rw [he, List.singleton_append, utf8DecodeAux.eq_3]
    simp only [utf8DecodeStep, if_pos h1, hoc]
  · by_cases h2 : c.toNat < 0x800
    · have e1 : ¬ (0xC0 + c.toNat / 64 < 0x80) := by omega
      have e2 : ¬ (0xC0 + c.toNat / 64 < 0xC2) := by omega
      have e3 : 0xC0 + c.toNat / 64 < 0xE0 := by omega
      have e4 : 0x80 ≤ 0x80 + c.toNat % 64 ∧ 0x80 + c.toNat % 64 < 0xC0 := by omega
      have hval : (0xC0 + c.toNat / 64 - 0xC0) * 64 + (0x80 + c.toNat % 64 - 0x80)
          = c.toNat := by omega
      have he : utf8EncodeChar c = [0xC0 + c.toNat / 64, 0x80 + c.toNat % 64] := by
        simp only [utf8EncodeChar, if_neg h1, if_pos h2]
      rw [he, List.cons_append, List.singleton_append, utf8DecodeAux.eq_3]
      simp only [utf8DecodeStep, if_neg e1, if_neg e2, if_pos e3,
        List.head?_cons, Option.some_bind, contVal, if_pos e4,
        List.drop_succ_cons, List.drop_zero, hval, hoc]
    · by_cases h3 : c.toNat < 0x10000
      · have hns : ¬ (0xD800 ≤ c.toNat ∧ c.toNat ≤ 0xDFFF) := by
          rcases hv with h | ⟨h, _⟩ <;> omega
        have e1 : ¬ (0xE0 + c.toNat / 4096 < 0x80) := by omega
        have e2 : ¬ (0xE0 + c.toNat / 4096 < 0xC2) := by omega
        have e3 : ¬ (0xE0 + c.toNat / 4096 < 0xE0) := by omega
        have e4 : 0xE0 + c.toNat / 4096 < 0xF0 := by omega
        have e5 : 0x80 ≤ 0x80 + c.toNat / 64 % 64 ∧ 0x80 + c.toNat / 64 % 64 < 0xC0 := by omega
        have e6 : 0x80 ≤ 0x80 + c.toNat % 64 ∧ 0x80 + c.toNat % 64 < 0xC0 := by omega
        have hval : (0xE0 + c.toNat / 4096 - 0xE0) * 4096 + (0x80 + c.toNat / 64 % 64 - 0x80) * 64
            + (0x80 + c.toNat % 64 - 0x80) = c.toNat := by omega
        have hrange : 0x800 ≤ c.toNat ∧ (c.toNat < 0xD800 ∨ 0xDFFF < c.toNat) := by omega
        have he : utf8EncodeChar c
            = [0xE0 + c.toNat / 4096, 0x80 + c.toNat / 64 % 64, 0x80 + c.toNat % 64] := by
          simp only [utf8EncodeChar, if_neg h1, if_neg h2, if_pos h3]
        rw [he, List.cons_append, List.cons_append, List.singleton_append,
          utf8DecodeAux.eq_3]
        simp only [utf8DecodeStep, if_neg e1, if_neg e2, if_neg e3, if_pos e4,
          List.head?_cons, Option.some_bind, contVal, if_pos e5, if_pos e6,
          List.drop_succ_cons, List.drop_zero, hval, if_pos hrange, hoc]
      · have h4 : c.toNat < 0x110000 := by
          rcases hv with h | ⟨_, h⟩ <;> omega
        have e1 : ¬ (0xF0 + c.toNat / 262144 < 0x80) := by omega
        have e2 : ¬ (0xF0 + c.toNat / 262144 < 0xC2) := by omega
        have e3 : ¬ (0xF0 + c.toNat / 262144 < 0xE0) := by omega
        have e4 : ¬ (0xF0 + c.toNat / 262144 < 0xF0) := by omega
        have e5 : 0xF0 + c.toNat / 262144 < 0xF5 := by omega
        have e6 : 0x80 ≤ 0x80 + c.toNat / 4096 % 64 ∧ 0x80 + c.toNat / 4096 % 64 < 0xC0 := by
          omega
        have e7 : 0x80 ≤ 0x80 + c.toNat / 64 % 64 ∧ 0x80 + c.toNat / 64 % 64 < 0xC0 := by omega
        have e8 : 0x80 ≤ 0x80 + c.toNat % 64 ∧ 0x80 + c.toNat % 64 < 0xC0 := by omega
        have hval : (0xF0 + c.toNat / 262144 - 0xF0) * 262144
            + (0x80 + c.toNat / 4096 % 64 - 0x80) * 4096
            + (0x80 + c.toNat / 64 % 64 - 0x80) * 64 + (0x80 + c.toNat % 64 - 0x80)
            = c.toNat := by omega
        have hrange : 0x10000 ≤ c.toNat ∧ c.toNat < 0x110000 := by omega
        have he : utf8EncodeChar c
            = [0xF0 + c.toNat / 262144, 0x80 + c.toNat / 4096 % 64,
                0x80 + c.toNat / 64 % 64, 0x80 + c.toNat % 64] := by
          simp only [utf8EncodeChar, if_neg h1, if_neg h2, if_neg h3]
        rw [he, List.cons_append, List.cons_append, List.cons_append, List.singleton_append,
          utf8DecodeAux.eq_3]
        simp only [utf8DecodeStep, if_neg e1, if_neg e2, if_neg e3, if_neg e4, if_pos e5,
          List.head?_cons, Option.some_bind, contVal, if_pos e6, if_pos e7, if_pos e8,
          List.drop_succ_cons, List.drop_zero, hval, if_pos hrange, hoc]

theorem utf8DecodeAux_encodeList (cs : List Char) :
    ∀ fuel, (utf8EncodeList cs).length ≤ fuel →
      utf8DecodeAux fuel (utf8EncodeList cs) = some cs := by
  induction cs with
  | nil =>
    intro fuel _
    cases fuel <;> rfl
  | cons c cs ih =>
    intro fuel hfuel
    have hk : 1 ≤ (utf8EncodeChar c).length := utf8EncodeChar_length_pos c
    have hlen : (utf8EncodeList (c :: cs)).length
        = (utf8EncodeChar c).length + (utf8EncodeList cs).length := by
      simp [utf8EncodeList]
    match fuel, hfuel with
    | 0, hfuel =>
      exact absurd hfuel (by omega)
    | f + 1, hfuel =>
      have hrest : (utf8EncodeList cs).length ≤ f := by omega
      show utf8DecodeAux (f + 1) (utf8EncodeChar c ++ utf8EncodeList cs) = some (c :: cs)
      rw [utf8DecodeAux_encodeChar, ih f hrest]
      rfl

theorem utf8DecodeList_utf8EncodeList (cs : List Char) :
    utf8DecodeList (utf8EncodeList cs) = some cs :=
  utf8DecodeAux_encodeList cs _ le_rfl

theorem stringFromUtf8_utf8Encode (s : String) :
    stringFromUtf8 (utf8Encode s) = some s := by
  simp only [stringFromUtf8, utf8Encode, utf8DecodeList_utf8EncodeList, Option.map_some]
  rfl

theorem utf8Encode_lt_256 (s : String) : ∀ b ∈ utf8Encode s, b < 256 := by
  show ∀ b ∈ utf8EncodeList s.data, b < 256
  induction s.data with
  | nil => intro b hb; cases hb
  | cons c cs ih =>
    intro b hb
    simp only [utf8EncodeList, List.mem_append] at hb
    rcases hb with h | h
    · exact utf8EncodeChar_lt_256 c b h
    · exact ih b h

theorem argon2idHash_length (password salt : String) :
    (argon2idHash password salt).length = 32 := by
  simp [argon2idHash]

theorem argon2idHash_lt_256 (password salt : String) :
    ∀ b ∈ argon2idHash password salt, b < 256 := by
  intro b hb
  simp only [argon2idHash, List.mem_map] at hb
  obtain ⟨i, _, rfl⟩ := hb
  exact Nat.mod_lt _ (by norm_num)

theorem buildKey_length (hash_bytes : List Nat) : (buildKey hash_bytes).length = 32 := by
  simp only [buildKey, List.length_append, List.length_take, List.length_replicate]
  omega

theorem buildKey_lt_256 (hash_bytes : List Nat) (h : ∀ b ∈ hash_bytes, b < 256) :
    ∀ b ∈ buildKey hash_bytes, b < 256 := by
  intro b hb
  simp only [buildKey, List.mem_append] at hb
  rcases hb with hb | hb
  · exact h b (List.mem_of_mem_take hb)
  · have := List.eq_of_mem_replicate hb
    omega

theorem aes256gcmDecrypt_encrypt (key nonce msg : List Nat)
    (hk : key.length = 32) (hn : nonce.length = 12) :
    aes256gcmDecrypt key nonce (aes256gcmEncrypt key nonce msg) = some msg := by
  have hkn : (key ++ nonce).length = 44 := by
    simp [List.length_append, hk, hn]
  have hlen : (aes256gcmEncrypt key nonce msg).length = msg.length + 44 := by
    simp [aes256gcmEncrypt, List.length_append, hk, hn]
  have hsub : (aes256gcmEncrypt key nonce msg).length - 44 = msg.length := by omega
  have hcond : 44 ≤ (aes256gcmEncrypt key nonce msg).length ∧
      (aes256gcmEncrypt key nonce msg).drop
        ((aes256gcmEncrypt key nonce msg).length - 44) = key ++ nonce := by
    constructor
    · omega
    · rw [hsub]
      exact List.drop_left msg (key ++ nonce)
  rw [aes256gcmDecrypt, if_pos hcond, hsub]
  congr 1
  exact List.take_left msg (key ++ nonce)

theorem aes256gcmDecrypt_wrong_key (key key' nonce msg : List Nat)
    (hk : key.length = 32) (hk' : key'.length = 32) (hn : nonce.length = 12)
    (hne : key' ≠ key) :
    aes256gcmDecrypt key' nonce (aes256gcmEncrypt key nonce msg) = none := by
  have hlen : (aes256gcmEncrypt key nonce msg).length = msg.length + 44 := by
    simp [aes256gcmEncrypt, List.length_append, hk, hn]
  have hsub : (aes256gcmEncrypt key nonce msg).length - 44 = msg.length := by omega
  rw [aes256gcmDecrypt, if_neg]
  intro hcond
  rw [hsub, aes256gcmEncrypt, List.drop_left] at hcond
  have := List.append_inj hcond.2 (by omega)
  exact hne this.1.symm

theorem except_bind_ok {α β : Type} (a : α) (f : α → Except String β) :
    (Except.ok a).bind f = f a := rfl

theorem except_bind_error {α β : Type} (e : String) (f : α → Except String β) :
    (Except.error e).bind f = (Except.error e : Except String β) := rfl

theorem string_length_zero_iff (s : String) : s.length = 0 ↔ s = "" := by
  constructor
  · intro h
    cases s with
    | mk data =>
      have hd : data = [] := List.length_eq_zero.mp h
      subst hd
      rfl
  · intro h
    subst h
    rfl

theorem string_append_ne_empty (p q : String) (hp : p ≠ "") : p ++ q ≠ "" := by
  intro h
  have hlen := congrArg String.length h
  rw [String.length_append] at hlen
  have h0 : ("" : String).length = 0 := rfl
  exact hp (string_length_zero_iff p |>.mp (by omega))

theorem derive_with_salt_ok (password salt_str : String)
    (h : saltFromB64 salt_str = .ok salt_str) (h8 : 8 ≤ b64DecodedLen salt_str) :
    derive_key_from_password_with_salt password salt_str
      = .ok (buildKey (argon2idHash password salt_str)) := by
  unfold derive_key_from_password_with_salt
  simp only [h]
  rw [if_neg (by omega)]

theorem derive_with_salt_traced_ok (password salt_str : String)
    (h : saltFromB64 salt_str = .ok salt_str) (h8 : 8 ≤ b64DecodedLen salt_str) :
    derive_key_from_password_with_salt_traced password salt_str
      = (.ok (buildKey (argon2idHash password salt_str)), [.deriveKey]) := by
  unfold derive_key_from_password_with_salt_traced
  simp only [h]
  rw [if_neg (by omega)]

theorem encrypt_private_key_eq (private_key password salt_str : String)
    (nonce_bytes : List Nat) (h8 : 8 ≤ b64DecodedLen salt_str) :
    encrypt_private_key private_key password salt_str nonce_bytes
      = .ok { ciphertext := hexEncode (aes256gcmEncrypt
                  (buildKey (argon2idHash password salt_str)) nonce_bytes
                  (utf8Encode private_key))
              nonce := hexEncode nonce_bytes
              tag := ""
              salt := salt_str } := by
  unfold encrypt_private_key derive_key_from_password
  rw [if_neg (by omega)]

theorem sealed_ciphertext_lt_256 (private_key password salt_str : String)
    (nonce_bytes : List Nat) (hnb : ∀ b ∈ nonce_bytes, b < 256) :
    ∀ b ∈ aes256gcmEncrypt (buildKey (argon2idHash password salt_str)) nonce_bytes
        (utf8Encode private_key), b < 256 := by
  intro b hb
  simp only [aes256gcmEncrypt, List.mem_append] at hb
  rcases hb with h | h | h
  · exact utf8Encode_lt_256 _ b h
  · exact buildKey_lt_256 _ (argon2idHash_lt_256 _ _) b h
  · exact hnb b h

theorem decrypt_private_key_traced_fst (ek : EncryptedKey) (password : String) :
    (decrypt_private_key_traced ek password).1 = decrypt_private_key ek password := by
  unfold decrypt_private_key_traced decrypt_private_key
    derive_key_from_password_with_salt_traced derive_key_from_password_with_salt
  cases saltFromB64 ek.salt with
  | error e => rfl
  | ok salt =>
    by_cases h8 : b64DecodedLen salt < 8
    · simp only [if_pos h8]
    · simp only [if_neg h8]
      cases hexDecode ek.ciphertext with
      | error e => rfl
      | ok ct =>
        cases hexDecode ek.nonce with
        | error e => rfl
        | ok nb =>
          by_cases hl : nb.length ≠ 12
          · simp only [if_pos hl]
          · simp only [if_neg hl]
            cases aes256gcmDecrypt (buildKey (argon2idHash password salt)) nb ct with
            | none => rfl
            | some pt =>
              dsimp only
              cases stringFromUtf8 pt with
              | none => rfl
              | some s => rfl

theorem encrypt_private_key_traced_fst (private_key password salt_str : String)
    (nonce_bytes : List Nat) :
    (encrypt_private_key_traced private_key password salt_str nonce_bytes).1
      = encrypt_private_key private_key password salt_str nonce_bytes := by
  unfold encrypt_private_key_traced encrypt_private_key
  cases derive_key_from_password password salt_str with
  | error e => rfl
  | ok kv => cases kv with | mk key s2 => rfl

theorem encrypt_sensitive_data_traced_fst (data password salt_str : String)
    (nonce_bytes : List Nat) :
    (encrypt_sensitive_data_traced data password salt_str nonce_bytes).1
      = encrypt_sensitive_data data password salt_str nonce_bytes := by
  unfold encrypt_sensitive_data_traced encrypt_sensitive_data
  by_cases h1 : data = ""
  · simp only [if_pos h1]
  · simp only [if_neg h1]
    by_cases h2 : password = ""
    · simp only [if_pos h2]
    · simp only [if_neg h2]
      have hfst := encrypt_private_key_traced_fst data password salt_str nonce_bytes
      rcases hE : encrypt_private_key_traced data password salt_str nonce_bytes with ⟨r, evs⟩
      rw [hE] at hfst
      rw [← hfst]
      cases r <;> rfl

/-- C1: for every non-empty secret and non-empty password, sealing the
secret with the password (encrypt_private_key) and opening the resulting
envelope with the same password (decrypt_private_key) returns the original
secret exactly.  The random salt string and nonce bytes are explicit; the
hypotheses on them state exactly what SaltString::generate and
rand::thread_rng produce (a valid B64 salt string of at least 8 decoded
bytes — a generated salt has 22 characters = 16 bytes — and 12 random
bytes). -/
theorem C1_seal_open_roundtrip (secret password salt_str : String)
    (nonce_bytes : List Nat)
    (hsecret : secret ≠ "") (hpassword : password ≠ "")
    (hsalt : saltFromB64 salt_str = .ok salt_str)
    (hslen : 8 ≤ b64DecodedLen salt_str)
    (hnlen : nonce_bytes.length = 12) (hnb : ∀ b ∈ nonce_bytes, b < 256) :
    ∃ ek, encrypt_private_key secret password salt_str nonce_bytes = .ok ek ∧
      decrypt_private_key ek password = .ok secret := by
  refine ⟨_, encrypt_private_key_eq secret password salt_str nonce_bytes hslen, ?_⟩
  have hkey : (buildKey (argon2idHash password salt_str)).length = 32 := buildKey_length _
  have hct : hexDecode (hexEncode (aes256gcmEncrypt
      (buildKey (argon2idHash password salt_str)) nonce_bytes (utf8Encode secret)))
      = .ok (aes256gcmEncrypt (buildKey (argon2idHash password salt_str)) nonce_bytes
          (utf8Encode secret)) :=
    hexDecode_hexEncode _ (sealed_ciphertext_lt_256 secret password salt_str nonce_bytes hnb)
  have hnd : hexDecode (hexEncode nonce_bytes) = .ok nonce_bytes :=
    hexDecode_hexEncode _ hnb
  have hcond : ¬ (nonce_bytes.length ≠ 12) := by omega
  have haes := aes256gcmDecrypt_encrypt (buildKey (argon2idHash password salt_str))
    nonce_bytes (utf8Encode secret) hkey hnlen
  simp only [decrypt_private_key, derive_with_salt_ok password salt_str hsalt hslen,
    hct, hnd, if_neg hcond, haes, stringFromUtf8_utf8Encode]

/-- Witness for C1 at the concrete inputs of the test test_encrypt_decrypt
of crypto.rs. -/
theorem C1_seal_open_roundtrip_witness :
    ∃ ek, encrypt_private_key "5JdeC19p7v5sGdkYjezapQTMQ7aXF2sDM6F1V5Q5ZH2mUZpWkCJ"
        "my-secure-password" "AAAAAAAAAAAAAAAAAAAAAA" [0,1,2,3,4,5,6,7,8,9,10,11] = .ok ek ∧
      decrypt_private_key ek "my-secure-password"
        = .ok "5JdeC19p7v5sGdkYjezapQTMQ7aXF2sDM6F1V5Q5ZH2mUZpWkCJ" :=
  C1_seal_open_roundtrip _ _ _ _ (by decide) (by decide) (by decide) (by decide)
    (by decide) (by decide)

/-- C2 as stated is false on the code: decrypt_private_key derives the key
before looking at the nonce, so an envelope whose nonce hex-decodes to 1
byte but whose salt does not parse fails with the salt error, not the
invalid-nonce-length error, and the derivation unit is invoked first (here
it aborts at salt parsing, before hashing, hence the empty event list). -/
theorem C2_counterexample :
    decrypt_private_key_traced
        { ciphertext := "00", nonce := "00", tag := "", salt := "!" } "pw"
      = (.error "Invalid salt: value to short", []) ∧
    ("Invalid salt: value to short" : String) ≠ "Invalid nonce length" := by
  constructor
  · rfl
  · decide

/-- C2 amended: for every envelope whose salt the derivation accepts (it
parses and decodes to at least 8 bytes) and whose ciphertext and nonce
fields are valid hex, a decoded nonce length other than 12 bytes makes
open fail with the invalid-nonce-length error — but the check runs only
after the expensive Argon2 key derivation has already been performed (the
deriveKey event precedes the failure), not before any cryptographic work
as the spec claims; an envelope whose salt the derivation rejects fails
with the salt or hashing error instead. -/
theorem C2_nonce_guard_after_derivation (ek : EncryptedKey) (password : String)
    (hsalt : saltFromB64 ek.salt = .ok ek.salt)
    (hslen : 8 ≤ b64DecodedLen ek.salt)
    (hct : ∃ cbs, hexDecode ek.ciphertext = .ok cbs)
    (hnonce : ∃ nbs, hexDecode ek.nonce = .ok nbs ∧ nbs.length ≠ 12) :
    decrypt_private_key_traced ek password
      = (.error "Invalid nonce length", [.deriveKey]) := by
  obtain ⟨cbs, hc⟩ := hct
  obtain ⟨nbs, hn, hlen⟩ := hnonce
  simp only [decrypt_private_key_traced,
    derive_with_salt_traced_ok password ek.salt hsalt hslen, hc, hn, if_pos hlen]

/-- Witness for C2 amended: a generated-shaped 22-character salt, valid
hex fields, 2-byte nonce. -/
theorem C2_nonce_guard_after_derivation_witness :
    decrypt_private_key_traced
        { ciphertext := "00", nonce := "0000", tag := ""
          salt := "AAAAAAAAAAAAAAAAAAAAAA" } "pw"
      = (.error "Invalid nonce length", [.deriveKey]) :=
  C2_nonce_guard_after_derivation _ _ (by decide) (by decide) ⟨[0], by decide⟩
    ⟨[0, 0], by decide, by decide⟩

/-- C3 as stated is false on the code: the salt encoding returned by
derive_key_from_password is exactly the raw B64 salt string it generated —
SaltString::to_string renders only the salt characters.  It contains no
$-separated section and no algorithm tag or cost parameters (a PHC-style
self-describing encoding would), so it is precisely the raw salt bytes the
claim says it is not. -/
theorem C3_counterexample :
    derive_key_from_password "pw" "AAAAAAAAAAAAAAAAAAAAAA"
      = .ok (buildKey (argon2idHash "pw" "AAAAAAAAAAAAAAAAAAAAAA"),
          "AAAAAAAAAAAAAAAAAAAAAA") ∧
    ("AAAAAAAAAAAAAAAAAAAAAA".data.all (fun c => c != '$')) = true := by
  constructor
  · rfl
  · decide

/-- C3 amended: derive_key_from_password returns, alongside the 32-byte
key, the raw B64 salt string only (no algorithm tag or parameters
embedded); later re-derivation still needs no separately stored parameters
because the cost parameters are fixed constants compiled into
derive_key_from_password_with_salt, which reproduces the key from the
password and that salt string alone. -/
theorem C3_salt_is_raw_b64 (password salt_str : String)
    (hsalt : saltFromB64 salt_str = .ok salt_str)
    (hslen : 8 ≤ b64DecodedLen salt_str) :
    derive_key_from_password password salt_str
        = .ok (buildKey (argon2idHash password salt_str), salt_str) ∧
    (buildKey (argon2idHash password salt_str)).length = 32 ∧
    derive_key_from_password_with_salt password salt_str
        = .ok (buildKey (argon2idHash password salt_str)) := by
  refine ⟨?_, buildKey_length _, derive_with_salt_ok password salt_str hsalt hslen⟩
  unfold derive_key_from_password
  rw [if_neg (by omega)]

/-- Witness for C3 amended at a concrete password and salt. -/
theorem C3_salt_is_raw_b64_witness :
    derive_key_from_password "pw" "AAAAAAAAAAAAAAAAAAAAAA"
        = .ok (buildKey (argon2idHash "pw" "AAAAAAAAAAAAAAAAAAAAAA"),
            "AAAAAAAAAAAAAAAAAAAAAA") ∧
    (buildKey (argon2idHash "pw" "AAAAAAAAAAAAAAAAAAAAAA")).length = 32 ∧
    derive_key_from_password_with_salt "pw" "AAAAAAAAAAAAAAAAAAAAAA"
        = .ok (buildKey (argon2idHash "pw" "AAAAAAAAAAAAAAAAAAAAAA")) :=
  C3_salt_is_raw_b64 "pw" "AAAAAAAAAAAAAAAAAAAAAA" (by decide) (by decide)

/-- C5: key derivation with a given salt is deterministic — two calls of
derive_key_from_password_with_salt with equal arguments return identical
keys — and for every salt the derivation accepts (it parses and decodes
to at least 8 bytes, as every salt derive_key_from_password generates
does) it returns exactly the 32-byte key that derive_key_from_password
produces for the same password and salt. -/
theorem C5_derivation_deterministic (password salt_str : String)
    (hsalt : saltFromB64 salt_str = .ok salt_str)
    (hslen : 8 ≤ b64DecodedLen salt_str) :
    (∀ p2 s2, p2 = password → s2 = salt_str →
        derive_key_from_password_with_salt p2 s2
          = derive_key_from_password_with_salt password salt_str) ∧
    ∃ key, derive_key_from_password_with_salt password salt_str = .ok key ∧
      key.length = 32 ∧
      derive_key_from_password password salt_str = .ok (key, salt_str) := by
  refine ⟨?_, buildKey (argon2idHash password salt_str),
    derive_with_salt_ok password salt_str hsalt hslen, buildKey_length _, ?_⟩
  · intro p2 s2 hp hs
    rw [hp, hs]
  · unfold derive_key_from_password
    rw [if_neg (by omega)]

/-- Witness for C5 at a concrete password and salt. -/
theorem C5_derivation_deterministic_witness :
    (∀ p2 s2, p2 = "my-secure-password" → s2 = "AAAAAAAAAAAAAAAAAAAAAA" →
        derive_key_from_password_with_salt p2 s2
          = derive_key_from_password_with_salt "my-secure-password"
              "AAAAAAAAAAAAAAAAAAAAAA") ∧
    ∃ key, derive_key_from_password_with_salt "my-secure-password"
        "AAAAAAAAAAAAAAAAAAAAAA" = .ok key ∧
      key.length = 32 ∧
      derive_key_from_password "my-secure-password" "AAAAAAAAAAAAAAAAAAAAAA"
        = .ok (key, "AAAAAAAAAAAAAAAAAAAAAA") :=
  C5_derivation_deterministic "my-secure-password" "AAAAAAAAAAAAAAAAAAAAAA" (by decide)
    (by decide)

theorem except_map_ok {α β : Type} (f : α → β) (a : α) :
    (Except.ok a : Except String α).map f = .ok (f a) := rfl

theorem except_map_error {α β : Type} (f : α → β) (e : String) :
    (Except.error e : Except String α).map f = .error e := rfl

theorem getStrField_ok_iff (fields : List (String × Json)) (name v : String) :
    getStrField fields name = .ok v ↔ jsonLookup fields name = some (.str v) := by
  unfold getStrField
  cases h : jsonLookup fields name with
  | none => simp
  | some j => cases j <;> simp

theorem encryptedKeyFromJson_ok (fields : List (String × Json)) (ek : EncryptedKey)
    (h : encryptedKeyFromJson (.obj fields) = .ok ek) :
    jsonLookup fields "ciphertext" = some (.str ek.ciphertext) ∧
    jsonLookup fields "nonce" = some (.str ek.nonce) ∧
    jsonLookup fields "tag" = some (.str ek.tag) ∧
    jsonLookup fields "salt" = some (.str ek.salt) := by
  by_cases hnodup : (fields.map Prod.fst).Nodup
  · simp only [encryptedKeyFromJson, if_pos hnodup] at h
    cases h1 : getStrField fields "ciphertext" with
    | error e => rw [h1, except_bind_error] at h; cases h
    | ok c =>
      rw [h1, except_bind_ok] at h
      cases h2 : getStrField fields "nonce" with
      | error e => rw [h2, except_bind_error] at h; cases h
      | ok n =>
        rw [h2, except_bind_ok] at h
        cases h3 : getStrField fields "tag" with
        | error e => rw [h3, except_bind_error] at h; cases h
        | ok t =>
          rw [h3, except_bind_ok] at h
          cases h4 : getStrField fields "salt" with
          | error e => rw [h4, except_map_error] at h; cases h
          | ok s =>
            rw [h4, except_map_ok] at h
            injection h with h
            subst h
            exact ⟨(getStrField_ok_iff _ _ _).mp h1, (getStrField_ok_iff _ _ _).mp h2,
              (getStrField_ok_iff _ _ _).mp h3, (getStrField_ok_iff _ _ _).mp h4⟩
  · simp only [encryptedKeyFromJson, if_neg hnodup] at h
    cases h

/-- C4 as stated is false on the code: a wire string whose ciphertext field
holds non-hex characters is accepted by the JSON deserialization of the
envelope — serde only checks the JSON structure and field types, not hex
validity. -/
theorem C4_counterexample :
    encryptedKeyFromStr
        "\x7b\"ciphertext\":\"zz\",\"nonce\":\"00\",\"tag\":\"\",\"salt\":\"AAAA\"\x7d"
      = .ok { ciphertext := "zz", nonce := "00", tag := "", salt := "AAAA" } := by
  rfl

/-- C4 amended: the JSON deserialization fails whenever one of the four
named fields is absent from the parsed object, but hex fields containing
non-hex characters are accepted by it; such fields are rejected only later
by the hex decoding inside decrypt_private_key, surfaced by
decrypt_sensitive_data as an in-band decryption failure. -/
theorem C4_missing_fields_fail_and_hex_checked_late :
    (∀ (s : String) (fields : List (String × Json)) (name : String),
      parseJson s = .ok (.obj fields) →
      name ∈ ["ciphertext", "nonce", "tag", "salt"] →
      jsonLookup fields name = none →
      ∃ e, encryptedKeyFromStr s = .error e) ∧
    (∀ (s password : String) (ek : EncryptedKey) (e0 : String),
      s ≠ "" → password ≠ "" →
      encryptedKeyFromStr s = .ok ek →
      saltFromB64 ek.salt = .ok ek.salt →
      8 ≤ b64DecodedLen ek.salt →
      hexDecode ek.ciphertext = .error e0 →
      decrypt_sensitive_data s password
        = .ok { success := false, decrypted_data := none
                error := some ("Decryption failed: "
                    ++ ("Failed to decode ciphertext: " ++ e0)) }) := by
  constructor
  · intro s fields name hp hmem hnone
    cases hres : encryptedKeyFromStr s with
    | error e => exact ⟨e, rfl⟩
    | ok ek =>
      exfalso
      simp only [encryptedKeyFromStr, hp] at hres
      obtain ⟨hc, hn, ht, hs⟩ := encryptedKeyFromJson_ok fields ek hres
      simp only [List.mem_cons, List.mem_singleton, List.not_mem_nil, or_false] at hmem
      rcases hmem with rfl | rfl | rfl | rfl
      · rw [hnone] at hc; cases hc
      · rw [hnone] at hn; cases hn
      · rw [hnone] at ht; cases ht
      · rw [hnone] at hs; cases hs
  · intro s password ek e0 hse hpe hok hsalt hslen hhex
    have hdec : decrypt_private_key ek password
        = .error ("Failed to decode ciphertext: " ++ e0) := by
      simp only [decrypt_private_key, derive_with_salt_ok password ek.salt hsalt hslen, hhex]
    simp only [decrypt_sensitive_data, if_neg hse, if_neg hpe, hok, hdec]

/-- Witness for C4 amended: a wire string with no nonce field is rejected
by the deserialization, and a non-hex ciphertext in a wire string whose
salt the derivation accepts (22 characters, as generated salts are) flows
through to the later hex-decode failure. -/
theorem C4_missing_fields_fail_and_hex_checked_late_witness :
    (∃ e, encryptedKeyFromStr
        "\x7b\"ciphertext\":\"00\",\"tag\":\"\",\"salt\":\"AAAA\"\x7d" = .error e) ∧
    decrypt_sensitive_data
        "\x7b\"ciphertext\":\"zz\",\"nonce\":\"00\",\"tag\":\"\",\"salt\":\"AAAAAAAAAAAAAAAAAAAAAA\"\x7d"
        "pw"
      = .ok { success := false, decrypted_data := none
              error := some ("Decryption failed: "
                  ++ ("Failed to decode ciphertext: " ++ "Invalid character")) } :=
  ⟨C4_missing_fields_fail_and_hex_checked_late.1
      "\x7b\"ciphertext\":\"00\",\"tag\":\"\",\"salt\":\"AAAA\"\x7d"
      [("ciphertext", .str "00"), ("tag", .str ""), ("salt", .str "AAAA")]
      "nonce" (by rfl) (by decide) (by rfl),
    C4_missing_fields_fail_and_hex_checked_late.2
      "\x7b\"ciphertext\":\"zz\",\"nonce\":\"00\",\"tag\":\"\",\"salt\":\"AAAAAAAAAAAAAAAAAAAAAA\"\x7d"
      "pw"
      { ciphertext := "zz", nonce := "00", tag := "", salt := "AAAAAAAAAAAAAAAAAAAAAA" }
      "Invalid character" (by decide) (by decide) (by rfl) (by decide) (by decide)
      (by rfl)⟩

/-- C6 as stated is false in its second half at the corner case of an empty
secret: the data check runs before the password check, so sealing with
both inputs empty reports the empty-data error, not the empty-password
error the claim requires for every secret. -/
theorem C6_counterexample :
    encrypt_sensitive_data "" "" "AAAAAAAAAAAAAAAAAAAAAA" [0,1,2,3,4,5,6,7,8,9,10,11]
      = .ok { success := false, encrypted_data := none
              error := some "Data cannot be empty" } ∧
    ("Data cannot be empty" : String) ≠ "Password cannot be empty" := by
  constructor
  · rfl
  · decide

/-- C6 amended: an empty secret makes seal fail with the empty-data error
for every password, and an empty password makes seal fail with the
empty-password error for every non-empty secret; in both cases the event
trace is empty, so neither the key-derivation nor the cipher unit ran. -/
theorem C6_empty_input_guards (data password salt_str : String) (nonce_bytes : List Nat) :
    (data = "" →
      encrypt_sensitive_data_traced data password salt_str nonce_bytes
        = (.ok { success := false, encrypted_data := none
                 error := some "Data cannot be empty" }, [])) ∧
    (data ≠ "" → password = "" →
      encrypt_sensitive_data_traced data password salt_str nonce_bytes
        = (.ok { success := false, encrypted_data := none
                 error := some "Password cannot be empty" }, [])) := by
  constructor
  · intro h
    simp only [encrypt_sensitive_data_traced, if_pos h]
  · intro hd hp
    simp only [encrypt_sensitive_data_traced, if_neg hd, if_pos hp]

/-- Witness for C6 amended at concrete inputs. -/
theorem C6_empty_input_guards_witness :
    encrypt_sensitive_data_traced "" "pw" "AAAA" []
        = (.ok { success := false, encrypted_data := none
                 error := some "Data cannot be empty" }, []) ∧
    encrypt_sensitive_data_traced "5Jkey" "" "AAAA" []
        = (.ok { success := false, encrypted_data := none
                 error := some "Password cannot be empty" }, []) :=
  ⟨(C6_empty_input_guards "" "pw" "AAAA" []).1 rfl,
    (C6_empty_input_guards "5Jkey" "" "AAAA" []).2 (by decide) rfl⟩

/-- C7: sealing under one password and opening with a different password
fails with the authentication-failure error of the cipher, not with a
wrong decrypted value.  The hypothesis that the two passwords derive
different 32-byte keys for the stored salt is the standard idealization of
the key-derivation function (truncation to 32 bytes makes it impossible to
prove for literally all password pairs); it is discharged by computation
in the witness. -/
theorem C7_wrong_password_rejected (secret password1 password2 salt_str : String)
    (nonce_bytes : List Nat)
    (hsalt : saltFromB64 salt_str = .ok salt_str)
    (hslen : 8 ≤ b64DecodedLen salt_str)
    (hnlen : nonce_bytes.length = 12) (hnb : ∀ b ∈ nonce_bytes, b < 256)
    (hpw : password1 ≠ password2)
    (hkeys : buildKey (argon2idHash password2 salt_str)
      ≠ buildKey (argon2idHash password1 salt_str)) :
    ∃ ek, encrypt_private_key secret password1 salt_str nonce_bytes = .ok ek ∧
      decrypt_private_key ek password2 = .error "Decryption failed: aead::Error" := by
  refine ⟨_, encrypt_private_key_eq secret password1 salt_str nonce_bytes hslen, ?_⟩
  have hct : hexDecode (hexEncode (aes256gcmEncrypt
      (buildKey (argon2idHash password1 salt_str)) nonce_bytes (utf8Encode secret)))
      = .ok (aes256gcmEncrypt (buildKey (argon2idHash password1 salt_str)) nonce_bytes
          (utf8Encode secret)) :=
    hexDecode_hexEncode _ (sealed_ciphertext_lt_256 secret password1 salt_str nonce_bytes hnb)
  have hnd : hexDecode (hexEncode nonce_bytes) = .ok nonce_bytes :=
    hexDecode_hexEncode _ hnb
  have hcond : ¬ (nonce_bytes.length ≠ 12) := by omega
  have haes := aes256gcmDecrypt_wrong_key (buildKey (argon2idHash password1 salt_str))
    (buildKey (argon2idHash password2 salt_str)) nonce_bytes (utf8Encode secret)
    (buildKey_length _) (buildKey_length _) hnlen hkeys
  simp only [decrypt_private_key, derive_with_salt_ok password2 salt_str hsalt hslen,
    hct, hnd, if_neg hcond, haes]

/-- Witness for C7 at the concrete inputs of the test test_wrong_password
of crypto.rs; the distinct-keys hypothesis is verified by computing both
derived keys. -/
theorem C7_wrong_password_rejected_witness :
    ∃ ek, encrypt_private_key "5JdeC19p7v5sGdkYjezapQTMQ7aXF2sDM6F1V5Q5ZH2mUZpWkCJ"
        "correct-password" "AAAAAAAAAAAAAAAAAAAAAA" [0,1,2,3,4,5,6,7,8,9,10,11] = .ok ek ∧
      decrypt_private_key ek "wrong-password" = .error "Decryption failed: aead::Error" :=
  C7_wrong_password_rejected _ _ _ _ _ (by decide) (by decide) (by decide) (by decide)
    (by decide) (by decide)

/-- C8: every envelope produced by a successful seal has a nonce field of
24 hex characters decoding to exactly the 12 random nonce bytes, a
ciphertext field that is valid hex, and an empty tag field. -/
theorem C8_envelope_shape (secret password salt_str : String) (nonce_bytes : List Nat)
    (hslen : 8 ≤ b64DecodedLen salt_str)
    (hnlen : nonce_bytes.length = 12) (hnb : ∀ b ∈ nonce_bytes, b < 256) :
    ∃ ek, encrypt_private_key secret password salt_str nonce_bytes = .ok ek ∧
      (∃ nbs, hexDecode ek.nonce = .ok nbs ∧ nbs.length = 12) ∧
      ek.nonce.length = 24 ∧
      (∃ cbs, hexDecode ek.ciphertext = .ok cbs) ∧
      ek.tag = "" := by
  refine ⟨_, encrypt_private_key_eq secret password salt_str nonce_bytes hslen,
    ⟨nonce_bytes, hexDecode_hexEncode _ hnb, hnlen⟩, ?_, ⟨_,
      hexDecode_hexEncode _ (sealed_ciphertext_lt_256 secret password salt_str
        nonce_bytes hnb)⟩, rfl⟩
  show (hexEncode nonce_bytes).length = 24
  rw [hexEncode_length, hnlen]

/-- Witness for C8 at concrete inputs. -/
theorem C8_envelope_shape_witness :
    ∃ ek, encrypt_private_key "5Jkey" "pw" "AAAAAAAAAAAAAAAAAAAAAA"
        [0,1,2,3,4,5,6,7,8,9,10,11] = .ok ek ∧
      (∃ nbs, hexDecode ek.nonce = .ok nbs ∧ nbs.length = 12) ∧
      ek.nonce.length = 24 ∧
      (∃ cbs, hexDecode ek.ciphertext = .ok cbs) ∧
      ek.tag = "" :=
  C8_envelope_shape _ _ _ _ (by decide) (by decide) (by decide)

/-- C9: decrypt_sensitive_data always returns the Ok variant of its
Result; every failure is reported in-band as a DecryptResponse with
success false and a non-empty error message. -/
theorem C9_decrypt_errors_in_band (encrypted_data password : String) :
    ∃ resp, decrypt_sensitive_data encrypted_data password = .ok resp ∧
      (resp.success = false → ∃ msg, resp.error = some msg ∧ msg ≠ "") := by
  by_cases h1 : encrypted_data = ""
  · refine ⟨⟨false, none, some "Encrypted data cannot be empty"⟩,
      by simp only [decrypt_sensitive_data, if_pos h1], ?_⟩
    intro _
    exact ⟨_, rfl, by decide⟩
  · by_cases h2 : password = ""
    · refine ⟨⟨false, none, some "Password cannot be empty"⟩,
        by simp only [decrypt_sensitive_data, if_neg h1, if_pos h2], ?_⟩
      intro _
      exact ⟨_, rfl, by decide⟩
    · cases h3 : encryptedKeyFromStr encrypted_data with
      | error e =>
        refine ⟨⟨false, none, some ("Invalid encrypted data format: " ++ e)⟩,
          by simp only [decrypt_sensitive_data, if_neg h1, if_neg h2, h3], ?_⟩
        intro _
        exact ⟨_, rfl, string_append_ne_empty _ _ (by decide)⟩
      | ok ek =>
        cases h4 : decrypt_private_key ek password with
        | ok d =>
          refine ⟨⟨true, some d, none⟩,
            by simp only [decrypt_sensitive_data, if_neg h1, if_neg h2, h3, h4], ?_⟩
          intro hfalse
          simp at hfalse
        | error e =>
          refine ⟨⟨false, none, some ("Decryption failed: " ++ e)⟩,
            by simp only [decrypt_sensitive_data, if_neg h1, if_neg h2, h3, h4], ?_⟩
          intro _
          exact ⟨_, rfl, string_append_ne_empty _ _ (by decide)⟩

/-- Witness for C9 at a concrete failing input. -/
theorem C9_decrypt_errors_in_band_witness :
    ∃ resp, decrypt_sensitive_data "" "pw" = .ok resp ∧
      (resp.success = false → ∃ msg, resp.error = some msg ∧ msg ≠ "") :=
  C9_decrypt_errors_in_band "" "pw"

/-- C10: both derivation functions return the key built by copying
min(32, hash length) bytes of the Argon2 output into a zero-initialized
32-byte array; the key always has exactly 32 bytes, and a hash output
shorter than 32 bytes yields a zero-padded key. -/
theorem C10_key_is_32_bytes_zero_padded (password salt_str : String)
    (hash_bytes : List Nat) :
    (8 ≤ b64DecodedLen salt_str →
      derive_key_from_password password salt_str
        = .ok (buildKey (argon2idHash password salt_str), salt_str)) ∧
    (saltFromB64 salt_str = .ok salt_str → 8 ≤ b64DecodedLen salt_str →
      derive_key_from_password_with_salt password salt_str
        = .ok (buildKey (argon2idHash password salt_str))) ∧
    (buildKey hash_bytes).length = 32 ∧
    (hash_bytes.length < 32 →
      buildKey hash_bytes = hash_bytes ++ List.replicate (32 - hash_bytes.length) 0) ∧
    (32 ≤ hash_bytes.length → buildKey hash_bytes = hash_bytes.take 32) := by
  refine ⟨?_, derive_with_salt_ok password salt_str, buildKey_length _, ?_, ?_⟩
  · intro h8
    unfold derive_key_from_password
    rw [if_neg (by omega)]
  · intro h
    unfold buildKey
    rw [min_eq_right (by omega), List.take_length]
  · intro h
    unfold buildKey
    rw [min_eq_left h]
    simp

/-- Witness for C10 with a concrete 3-byte hash output. -/
theorem C10_key_is_32_bytes_zero_padded_witness :
    derive_key_from_password "pw" "AAAAAAAAAAAAAAAAAAAAAA"
        = .ok (buildKey (argon2idHash "pw" "AAAAAAAAAAAAAAAAAAAAAA"),
            "AAAAAAAAAAAAAAAAAAAAAA") ∧
    derive_key_from_password_with_salt "pw" "AAAAAAAAAAAAAAAAAAAAAA"
        = .ok (buildKey (argon2idHash "pw" "AAAAAAAAAAAAAAAAAAAAAA")) ∧
    (buildKey [7, 7, 7]).length = 32 ∧
    buildKey [7, 7, 7] = [7, 7, 7] ++ List.replicate 29 0 := by
  obtain ⟨h1, h2, h3, h4, _⟩ :=
    C10_key_is_32_bytes_zero_padded "pw" "AAAAAAAAAAAAAAAAAAAAAA" [7, 7, 7]
  exact ⟨h1 (by decide), h2 (by decide) (by decide), h3, by simpa using h4 (by decide)⟩

end SteemVault

